import Mathlib

/-!
Verification of the torchgeo sampler utilities (`torchgeo/samplers/utils.py`)
and the AgriFieldNet dataset indexing and label-remapping logic
(`torchgeo/datasets/agrifieldnet.py`), shallowly embedded in Lean.
Coordinates, resolutions and timestamps are modelled as rationals; the
`torch.rand` draws are passed explicitly as uniform samples in `[0,1)`.
-/

namespace TorchGeo

/-- Truncation toward zero: the semantics of Python `int()` on a number. -/
def truncQ (q : ℚ) : ℤ := if 0 ≤ q then ⌊q⌋ else ⌈q⌉

/-- `_to_tuple` from `torchgeo/samplers/utils.py`: broadcast a scalar to a
pair, leave a pair unchanged. -/
def _to_tuple : ℚ ⊕ (ℚ × ℚ) → ℚ × ℚ
  | .inl v => (v, v)
  | .inr p => p

/-- `get_random_bounding_box` from `torchgeo/samplers/utils.py`.
`bounds = (xmin, ymin, xmax, ymax)`; `size = (height, width)`;
`res = (xres, yres)` (both already pairs, see `_to_tuple`).  The two draws
of `torch.rand(1, generator=generator)` are the parameters `u1, u2`.
Returns the pair of ranges `((xmin', xmax'), (ymin', ymax'))`. -/
def get_random_bounding_box (bounds : ℚ × ℚ × ℚ × ℚ) (size res : ℚ × ℚ)
    (u1 u2 : ℚ) : (ℚ × ℚ) × (ℚ × ℚ) :=
  let xmin := bounds.1
  let ymin := bounds.2.1
  let xmax := bounds.2.2.1
  let ymax := bounds.2.2.2
  let width : ℚ := (xmax - xmin - size.2) / res.1
  let height : ℚ := (ymax - ymin - size.1) / res.2
  let xmin2 : ℚ := xmin + (truncQ (u1 * width) : ℚ) * res.1
  let ymin2 : ℚ := ymin + (truncQ (u2 * height) : ℚ) * res.2
  ((xmin2, xmin2 + size.2), (ymin2, ymin2 + size.1))

/-- A seeded pseudo-random source: a deterministic sample stream together
with a cursor.  Each draw of `torch.rand` reads the sample at the cursor and
advances it; no other state exists. -/
structure Generator where
  stream : ℕ → ℚ
  state : ℕ

/-- One draw from a `Generator`. -/
def torchRand (g : Generator) : ℚ × Generator :=
  (g.stream g.state, ⟨g.stream, g.state + 1⟩)

/-- `get_random_bounding_box` threaded through the generator: the function
draws exactly two samples and touches nothing else. -/
def get_random_bounding_box_gen (bounds : ℚ × ℚ × ℚ × ℚ) (size res : ℚ × ℚ)
    (g : Generator) : ((ℚ × ℚ) × (ℚ × ℚ)) × Generator :=
  let d1 := torchRand g
  let d2 := torchRand d1.2
  (get_random_bounding_box bounds size res d1.1 d2.1, d2.2)

/-- `tile_to_chips` from `torchgeo/samplers/utils.py`.  `bounds =
(xmin, ymin, xmax, ymax)`; `size = (height, width)`; `stride = none` means
the argument was omitted (it then defaults to `size`).  The two
`assert stride > 0` statements become the `Except.error` branches. -/
def tile_to_chips (bounds : ℚ × ℚ × ℚ × ℚ) (size : ℚ × ℚ)
    (stride : Option (ℚ × ℚ)) : Except String (ℤ × ℤ) :=
  let strd := stride.getD size
  if ¬ (0 < strd.1) then .error "assert stride[0] > 0"
  else if ¬ (0 < strd.2) then .error "assert stride[1] > 0"
  else
    let xmin := bounds.1
    let ymin := bounds.2.1
    let xmax := bounds.2.2.1
    let ymax := bounds.2.2.2
    let rows : ℤ := ⌈(ymax - ymin - size.1) / strd.1⌉ + 1
    let cols : ℤ := ⌈(xmax - xmin - size.2) / strd.2⌉ + 1
    .ok (rows, cols)

/-- Whether an `Except` result is a success. -/
def exceptOk {ε α : Type} : Except ε α → Bool
  | .ok _ => true
  | .error _ => false

lemma truncQ_of_nonneg (q : ℚ) (h : 0 ≤ q) : truncQ q = ⌊q⌋ := if_pos h

/-- The strided offset added to a tile corner: it is nonnegative and at most
the slack, whenever the chip fits in the tile, the sample is in `[0,1)` and
the resolution is positive. -/
lemma truncQ_offset_range (e s r u : ℚ) (hu0 : 0 ≤ u) (hu1 : u < 1) (hr : 0 < r)
    (hfit : s ≤ e) :
    0 ≤ (truncQ (u * ((e - s) / r)) : ℚ) * r ∧
      (truncQ (u * ((e - s) / r)) : ℚ) * r ≤ e - s := by
  have hw : 0 ≤ (e - s) / r := div_nonneg (by linarith) hr.le
  have huw0 : 0 ≤ u * ((e - s) / r) := mul_nonneg hu0 hw
  have huw1 : u * ((e - s) / r) ≤ (e - s) / r := mul_le_of_le_one_left hw hu1.le
  rw [truncQ_of_nonneg _ huw0]
  constructor
  · exact mul_nonneg (by exact_mod_cast Int.floor_nonneg.mpr huw0) hr.le
  · calc (⌊u * ((e - s) / r)⌋ : ℚ) * r ≤ ((e - s) / r) * r := by
          apply mul_le_mul_of_nonneg_right _ hr.le
          exact le_trans (Int.floor_le _) huw1
    _ = e - s := div_mul_cancel₀ _ hr.ne'

/-- The strided offset vanishes when the slack lies in `[0, 1)`. -/
lemma truncQ_offset_zero (w u : ℚ) (hu0 : 0 ≤ u) (hu1 : u < 1)
    (hw0 : 0 ≤ w) (hw1 : w < 1) : truncQ (u * w) = 0 := by
  have h0 : 0 ≤ u * w := mul_nonneg hu0 hw0
  have h1 : u * w < 1 := lt_of_le_of_lt (mul_le_of_le_one_left hw0 hu1.le) hw1
  rw [truncQ_of_nonneg _ h0]
  exact Int.floor_eq_zero_iff.mpr ⟨h0, h1⟩

/-- C3: `tile_to_chips` computes `ceil((extent - size) / stride) + 1` per
dimension, rows from y and columns from x, with the stride defaulting to
the chip size; in particular `(0,0,10,10)`, size `(5,5)` yields `(2,2)` at
stride `(5,5)` and `(3,3)` at stride `(3,3)`. -/
theorem tile_to_chips_formula :
    (∀ (bounds : ℚ × ℚ × ℚ × ℚ) (size strd : ℚ × ℚ), 0 < strd.1 → 0 < strd.2 →
      tile_to_chips bounds size (some strd) =
        .ok (⌈(bounds.2.2.2 - bounds.2.1 - size.1) / strd.1⌉ + 1,
             ⌈(bounds.2.2.1 - bounds.1 - size.2) / strd.2⌉ + 1)) ∧
    (∀ (bounds : ℚ × ℚ × ℚ × ℚ) (size : ℚ × ℚ),
      tile_to_chips bounds size none = tile_to_chips bounds size (some size)) ∧
    tile_to_chips (0, 0, 10, 10) (5, 5) (some (5, 5)) = .ok (2, 2) ∧
    tile_to_chips (0, 0, 10, 10) (5, 5) (some (3, 3)) = .ok (3, 3) := by
  refine ⟨?_, ?_, ?_, ?_⟩
  · intro bounds size strd h1 h2
    simp [tile_to_chips, h1, h2]
  · intro bounds size
    rfl
  · simp only [tile_to_chips]
    norm_num [Int.ceil_eq_iff]
  · have h : (⌈((5:ℚ) / 3)⌉ : ℤ) = 2 := by
      rw [Int.ceil_eq_iff]
      norm_num
    simp only [tile_to_chips]
    norm_num [h]

/-- C3 witness: the general formula evaluated at bounds `(0,0,8,9)`,
size `(2,3)`, stride `(2,2)`. -/
theorem tile_to_chips_formula_witness :
    tile_to_chips (0, 0, 8, 9) (2, 3) (some (2, 2)) = .ok (5, 4) := by
  rw [tile_to_chips_formula.1 (0, 0, 8, 9) (2, 3) (2, 2) (by norm_num) (by norm_num)]
  have h1 : (⌈((7:ℚ) / 2)⌉ : ℤ) = 4 := by
    rw [Int.ceil_eq_iff]
    norm_num
  have h2 : (⌈((5:ℚ) / 2)⌉ : ℤ) = 3 := by
    rw [Int.ceil_eq_iff]
    norm_num
  norm_num [h1, h2]

/-- C7: `tile_to_chips` succeeds exactly when the (possibly defaulted)
stride is strictly positive in both dimensions, and any violating input
fails with an assertion-style error. -/
theorem tile_to_chips_stride_assert (bounds : ℚ × ℚ × ℚ × ℚ) (size : ℚ × ℚ)
    (stride : Option (ℚ × ℚ)) :
    (exceptOk (tile_to_chips bounds size stride) = true ↔
      0 < (stride.getD size).1 ∧ 0 < (stride.getD size).2) ∧
    (¬ (0 < (stride.getD size).1 ∧ 0 < (stride.getD size).2) →
      ∃ e, tile_to_chips bounds size stride = .error e) := by
  by_cases h1 : 0 < (stride.getD size).1
  · by_cases h2 : 0 < (stride.getD size).2
    · constructor
      · simp [tile_to_chips, exceptOk, h1, h2]
      · intro h
        exact absurd ⟨h1, h2⟩ h
    · constructor
      · simp [tile_to_chips, exceptOk, h1, h2]
      · intro _
        exact ⟨"assert stride[1] > 0", by simp [tile_to_chips, h1, h2]⟩
  · constructor
    · simp [tile_to_chips, exceptOk, h1]
    · intro _
      exact ⟨"assert stride[0] > 0", by simp [tile_to_chips, h1]⟩

/-- C7 witness: a zero x-stride is rejected. -/
theorem tile_to_chips_stride_assert_witness :
    ∃ e, tile_to_chips (0, 0, 1, 1) (1, 1) (some (0, 1)) = .error e :=
  (tile_to_chips_stride_assert (0, 0, 1, 1) (1, 1) (some (0, 1))).2 (by norm_num)

/-- C4: `get_random_bounding_box` returns the box whose origin is the tile's
minimum corner plus `trunc(u * slack) * res` in each axis (slack =
`(extent - size) / res`) and whose opposite corner is the origin plus the
requested size; hence the box has exactly the requested size, and when it
fits in the tile its origin lies in `[min, max - size]` at an integer
multiple of the resolution from the tile origin. -/
theorem get_random_bounding_box_spec
    (xmin ymin xmax ymax sh sw rx ry u1 u2 : ℚ)
    (hu1 : 0 ≤ u1) (hu1' : u1 < 1) (hu2 : 0 ≤ u2) (hu2' : u2 < 1)
    (hrx : 0 < rx) (hry : 0 < ry) :
    ∀ b, b = get_random_bounding_box (xmin, ymin, xmax, ymax) (sh, sw) (rx, ry) u1 u2 →
      b = ((xmin + (truncQ (u1 * ((xmax - xmin - sw) / rx)) : ℚ) * rx,
            xmin + (truncQ (u1 * ((xmax - xmin - sw) / rx)) : ℚ) * rx + sw),
           (ymin + (truncQ (u2 * ((ymax - ymin - sh) / ry)) : ℚ) * ry,
            ymin + (truncQ (u2 * ((ymax - ymin - sh) / ry)) : ℚ) * ry + sh)) ∧
      (b.1.2 - b.1.1 = sw ∧ b.2.2 - b.2.1 = sh) ∧
      (sw ≤ xmax - xmin →
        xmin ≤ b.1.1 ∧ b.1.1 ≤ xmax - sw ∧ ∃ k : ℤ, b.1.1 = xmin + (k : ℚ) * rx) ∧
      (sh ≤ ymax - ymin →
        ymin ≤ b.2.1 ∧ b.2.1 ≤ ymax - sh ∧ ∃ k : ℤ, b.2.1 = ymin + (k : ℚ) * ry) := by
  intro b hb
  subst hb
  simp only [get_random_bounding_box]
  refine ⟨by trivial, ⟨by ring, by ring⟩, ?_, ?_⟩
  · intro hfit
    obtain ⟨h0, h1⟩ := truncQ_offset_range (xmax - xmin) sw rx u1 hu1 hu1' hrx hfit
    exact ⟨by linarith, by linarith, truncQ (u1 * ((xmax - xmin - sw) / rx)), rfl⟩
  · intro hfit
    obtain ⟨h0, h1⟩ := truncQ_offset_range (ymax - ymin) sh ry u2 hu2 hu2' hry hfit
    exact ⟨by linarith, by linarith, truncQ (u2 * ((ymax - ymin - sh) / ry)), rfl⟩

/-- C4 witness: tile `(0,0,10,10)`, box size `(4,4)`, resolution `1`,
samples `u1 = 1/2` (slack 6, offset 3) and `u2 = 0`. -/
theorem get_random_bounding_box_spec_witness :
    get_random_bounding_box (0, 0, 10, 10) (4, 4) (1, 1) (1/2) 0 =
      ((3, 7), (0, 4)) ∧
    (0 : ℚ) ≤ 3 ∧ (3 : ℚ) ≤ 10 - 4 := by
  have h := get_random_bounding_box_spec 0 0 10 10 4 4 1 1 (1/2) 0
    (by norm_num) (by norm_num) (by norm_num) (by norm_num) (by norm_num) (by norm_num)
    (get_random_bounding_box (0, 0, 10, 10) (4, 4) (1, 1) (1/2) 0) rfl
  have htr : truncQ ((1/2 : ℚ) * ((10 - 0 - 4) / 1)) = 3 := by
    rw [truncQ_of_nonneg _ (by norm_num)]
    norm_num
  have htr0 : truncQ ((0 : ℚ) * ((10 - 0 - 4) / 1)) = 0 := by
    rw [truncQ_of_nonneg _ (by norm_num)]
    norm_num
  refine ⟨?_, by norm_num, by norm_num⟩
  rw [h.1, htr, htr0]
  norm_num

/-- C10: when the slack `(extent - size) / res` of an axis lies in `[0, 1)`,
the sampled origin in that axis equals the tile's minimum corner for every
draw; in particular when the tile extent equals the box size in both axes,
the returned box is exactly the tile. -/
theorem get_random_bounding_box_small_slack
    (xmin ymin xmax ymax sh sw rx ry u1 u2 : ℚ)
    (hu1 : 0 ≤ u1) (hu1' : u1 < 1) (hu2 : 0 ≤ u2) (hu2' : u2 < 1) :
    (0 ≤ (xmax - xmin - sw) / rx → (xmax - xmin - sw) / rx < 1 →
      (get_random_bounding_box (xmin, ymin, xmax, ymax) (sh, sw) (rx, ry) u1 u2).1.1 =
        xmin) ∧
    (0 ≤ (ymax - ymin - sh) / ry → (ymax - ymin - sh) / ry < 1 →
      (get_random_bounding_box (xmin, ymin, xmax, ymax) (sh, sw) (rx, ry) u1 u2).2.1 =
        ymin) ∧
    (xmax - xmin = sw → ymax - ymin = sh →
      get_random_bounding_box (xmin, ymin, xmax, ymax) (sh, sw) (rx, ry) u1 u2 =
        ((xmin, xmax), (ymin, ymax))) := by
  refine ⟨?_, ?_, ?_⟩
  · intro hw0 hw1
    simp only [get_random_bounding_box]
    rw [truncQ_offset_zero _ u1 hu1 hu1' hw0 hw1]
    norm_num
  · intro hh0 hh1
    simp only [get_random_bounding_box]
    rw [truncQ_offset_zero _ u2 hu2 hu2' hh0 hh1]
    norm_num
  · intro hx hy
    have hwx : xmax - xmin - sw = 0 := by linarith
    have hwy : ymax - ymin - sh = 0 := by linarith
    simp only [get_random_bounding_box, hwx, hwy, zero_div, mul_zero]
    have h0 : truncQ 0 = 0 := by
      rw [truncQ_of_nonneg _ le_rfl]
      exact Int.floor_zero
    rw [h0]
    norm_num
    constructor <;> linarith

/-- C10 witness: tile `(0,0,3,5)` with box size `(5,3)` (exact fit) returns
the tile itself at draws `u1 = 1/3`, `u2 = 2/3`. -/
theorem get_random_bounding_box_small_slack_witness :
    get_random_bounding_box (0, 0, 3, 5) (5, 3) (1, 1) (1/3) (2/3) =
      ((0, 3), (0, 5)) := by
  have h := get_random_bounding_box_small_slack 0 0 3 5 5 3 1 1 (1/3) (2/3)
    (by norm_num) (by norm_num) (by norm_num) (by norm_num)
  have := h.2.2 (by norm_num) (by norm_num)
  simpa using this

/-- C8: `get_random_bounding_box` with a generator is deterministic — equal
generator states give identical results — and, more strongly, its output
depends only on the two samples drawn from the stream, on no other state. -/
theorem get_random_bounding_box_deterministic
    (bounds : ℚ × ℚ × ℚ × ℚ) (size res : ℚ × ℚ) (g g' : Generator) :
    (g = g' → get_random_bounding_box_gen bounds size res g =
      get_random_bounding_box_gen bounds size res g') ∧
    (g.stream g.state = g'.stream g'.state →
      g.stream (g.state + 1) = g'.stream (g'.state + 1) →
      (get_random_bounding_box_gen bounds size res g).1 =
        (get_random_bounding_box_gen bounds size res g').1) := by
  constructor
  · intro h
    rw [h]
  · intro h1 h2
    simp only [get_random_bounding_box_gen, torchRand]
    rw [h1, h2]

/-- C8 witness: two generators over the same stream of samples (cursors 0
and 5 of constant streams) produce the same box. -/
theorem get_random_bounding_box_deterministic_witness :
    (get_random_bounding_box_gen (0, 0, 4, 4) (2, 2) (1, 1) ⟨fun _ => 1/2, 0⟩).1 =
      (get_random_bounding_box_gen (0, 0, 4, 4) (2, 2) (1, 1) ⟨fun _ => 1/2, 5⟩).1 :=
  (get_random_bounding_box_deterministic (0, 0, 4, 4) (2, 2) (1, 1)
    ⟨fun _ => 1/2, 0⟩ ⟨fun _ => 1/2, 5⟩).2 rfl rfl

namespace AgriFieldNet

/-- The class colour map `AgriFieldNet.cmap` from
`torchgeo/datasets/agrifieldnet.py`: raw class id paired with its RGBA
colour, in declaration order. -/
def cmap : List (ℕ × (ℕ × ℕ × ℕ × ℕ)) :=
  [(0, (0, 0, 0, 255)),
   (1, (255, 211, 0, 255)),
   (2, (255, 37, 37, 255)),
   (3, (0, 168, 226, 255)),
   (4, (255, 158, 9, 255)),
   (5, (37, 111, 0, 255)),
   (6, (255, 255, 0, 255)),
   (8, (111, 166, 0, 255)),
   (9, (0, 175, 73, 255)),
   (13, (222, 166, 9, 255)),
   (14, (222, 166, 9, 255)),
   (15, (124, 211, 255, 255)),
   (16, (226, 0, 124, 255)),
   (36, (137, 96, 83, 255))]

/-- `cmap.keys()`: the known valid raw class ids. -/
def cmapKeys : List ℕ := cmap.map Prod.fst

/-- `max(cmap.keys()) + 1`: the length of the ordinal lookup table. -/
def tableSize : ℕ := cmapKeys.foldl max 0 + 1

/-- The two `assert` statements at the top of `AgriFieldNet.__init__`:
`set(classes) <= cmap.keys()` and `0 in classes`, in that order.  They run
at construction time, before the index is built or any query is made. -/
def validateClasses (classes : List ℕ) : Except String Unit :=
  if ¬ (∀ k ∈ classes, k ∈ cmapKeys) then
    .error "Only the following classes are valid: list(self.cmap.keys())."
  else if ¬ (0 ∈ classes) then
    .error "Classes must include the background class: 0"
  else
    .ok ()

/-- The loop `for v, k in enumerate(classes): self.ordinal_map[k] = v`:
`m` is the table so far and `v` the ordinal of the next class. -/
def setOrdinals (m : List ℕ) (v : ℕ) : List ℕ → List ℕ
  | [] => m
  | k :: ks => setOrdinals (m.set k v) (v + 1) ks

/-- `self.ordinal_map`: a table of `max(cmap.keys()) + 1` zeros, then each
listed class id is assigned its position in `classes`. -/
def ordinal_map (classes : List ℕ) : List ℕ :=
  setOrdinals (List.replicate tableSize 0) 0 classes

/-- `self.ordinal_map[mask.squeeze().long()]` in `AgriFieldNet.__getitem__`:
every raw mask value is looked up in the ordinal table; a value outside the
table is an indexing error, modelled as `none`. -/
def remapMask (m : List ℕ) : List ℕ → Option (List ℕ)
  | [] => some []
  | v :: rest =>
    match m.get? v, remapMask m rest with
    | some o, some os => some (o :: os)
    | _, _ => none

lemma setOrdinals_length :
    ∀ (ks : List ℕ) (m : List ℕ) (v : ℕ), (setOrdinals m v ks).length = m.length := by
  intro ks
  induction ks with
  | nil => intro m v; rfl
  | cons k ks ih =>
    intro m v
    rw [setOrdinals, ih, List.length_set]

lemma setOrdinals_get?_not_mem :
    ∀ (ks : List ℕ) (m : List ℕ) (v j : ℕ), j ∉ ks →
      (setOrdinals m v ks).get? j = m.get? j := by
  intro ks
  induction ks with
  | nil => intro m v j _; rfl
  | cons k ks ih =>
    intro m v j hj
    simp only [List.mem_cons, not_or] at hj
    rw [setOrdinals, ih _ _ _ hj.2, List.get?_set_ne _ _ (Ne.symm hj.1)]

lemma setOrdinals_get?_mem :
    ∀ (ks : List ℕ) (m : List ℕ) (v i k : ℕ), ks.get? i = some k → ks.Nodup →
      k < m.length → (setOrdinals m v ks).get? k = some (v + i) := by
  intro ks
  induction ks with
  | nil => intro m v i k h _ _; simp at h
  | cons k0 ks ih =>
    intro m v i k hget hnd hk
    rw [List.nodup_cons] at hnd
    cases i with
    | zero =>
      rw [List.get?] at hget
      obtain rfl : k0 = k := by injection hget
      rw [setOrdinals, setOrdinals_get?_not_mem ks _ _ _ hnd.1,
        List.get?_set_eq_of_lt _ hk, Nat.add_zero]
    | succ i =>
      rw [List.get?] at hget
      rw [setOrdinals]
      have := ih (m.set k0 v) (v + 1) i k hget hnd.2 (by rwa [List.length_set])
      rw [this]
      congr 1
      omega

lemma get?_replicate_of_lt {α : Type} (n k : ℕ) (a : α) (h : k < n) :
    (List.replicate n a).get? k = some a := by
  rw [List.get?_eq_some]
  exact ⟨by simpa using h, by simp⟩

lemma cmapKeys_lt_37 : ∀ k ∈ cmapKeys, k < 37 := by decide

lemma tableSize_eq : tableSize = 37 := by decide

/-- C6: class-list validation at construction succeeds exactly when every
listed id is a known valid id and the background id 0 is listed; every
violating list fails with a validation error (at construction time, before
any query). -/
theorem validateClasses_iff (classes : List ℕ) :
    (validateClasses classes = .ok () ↔
      (∀ k ∈ classes, k ∈ cmapKeys) ∧ 0 ∈ classes) ∧
    (¬ ((∀ k ∈ classes, k ∈ cmapKeys) ∧ 0 ∈ classes) →
      ∃ e, validateClasses classes = .error e) := by
  by_cases h1 : ∀ k ∈ classes, k ∈ cmapKeys
  · by_cases h2 : (0 : ℕ) ∈ classes
    · have hok : validateClasses classes = .ok () := by
        rw [validateClasses, if_neg (not_not_intro h1), if_neg (not_not_intro h2)]
      refine ⟨?_, fun h => absurd ⟨h1, h2⟩ h⟩
      rw [hok]
      exact iff_of_true rfl ⟨h1, h2⟩
    · have herr : validateClasses classes =
          .error "Classes must include the background class: 0" := by
        rw [validateClasses, if_neg (not_not_intro h1), if_pos h2]
      refine ⟨?_, fun _ => ⟨_, herr⟩⟩
      rw [herr]
      exact iff_of_false (fun h => Except.noConfusion h) (fun hc => h2 hc.2)
  · have herr : validateClasses classes =
        .error "Only the following classes are valid: list(self.cmap.keys())." := by
      rw [validateClasses, if_pos h1]
    refine ⟨?_, fun _ => ⟨_, herr⟩⟩
    rw [herr]
    exact iff_of_false (fun h => Except.noConfusion h) (fun hc => h1 hc.1)

/-- C6 witness: the list `[1, 2]` (missing the background id 0) is rejected;
the list `[0, 1, 36]` is accepted. -/
theorem validateClasses_iff_witness :
    (∃ e, validateClasses [1, 2] = .error e) ∧
      validateClasses [0, 1, 36] = .ok () :=
  ⟨(validateClasses_iff [1, 2]).2 (by decide),
   (validateClasses_iff [0, 1, 36]).1.mpr (by decide)⟩

/-- C5 counterexample: the class list `[0, 1, 1]` contains the background
id and only valid ids, yet the id `1`, listed at position `1`, ends up
mapped to ordinal `2` (the last assignment wins), not to its position. -/
theorem ordinal_map_duplicate_counterexample :
    (∀ k ∈ ([0, 1, 1] : List ℕ), k ∈ cmapKeys) ∧
    (0 : ℕ) ∈ ([0, 1, 1] : List ℕ) ∧
    ([0, 1, 1] : List ℕ).get? 1 = some 1 ∧
    (ordinal_map [0, 1, 1]).get? 1 ≠ some 1 ∧
    (ordinal_map [0, 1, 1]).get? 1 = some 2 := by decide

/-- C5 (amended with distinctness): for every duplicate-free class list
containing the background id 0 and drawn from the known valid ids, the
lookup table has `max(cmap.keys()) + 1 = 37` entries, sends the id listed
at position `v` to ordinal `v` (a unique ordinal in `[0, len)`, preserving
list order), and sends every id not listed to ordinal 0. -/
theorem ordinal_map_spec (classes : List ℕ)
    (hsub : ∀ k ∈ classes, k ∈ cmapKeys) (hbg : 0 ∈ classes)
    (hnd : classes.Nodup) :
    (ordinal_map classes).length = 37 ∧
    (∀ v k, classes.get? v = some k →
      v < classes.length ∧ (ordinal_map classes).get? k = some v) ∧
    (∀ k, k < 37 → k ∉ classes → (ordinal_map classes).get? k = some 0) := by
  refine ⟨?_, ?_, ?_⟩
  · rw [ordinal_map, setOrdinals_length, List.length_replicate, tableSize_eq]
  · intro v k hget
    have hvlt : v < classes.length := by
      by_contra h
      rw [List.get?_eq_none.mpr (le_of_not_lt h)] at hget
      exact Option.noConfusion hget
    have hk37 : k < 37 := cmapKeys_lt_37 k (hsub k (List.get?_mem hget))
    refine ⟨hvlt, ?_⟩
    have := setOrdinals_get?_mem classes (List.replicate tableSize 0) 0 v k hget hnd
      (by rw [List.length_replicate, tableSize_eq]; exact hk37)
    rwa [Nat.zero_add] at this
  · intro k hk hkn
    rw [ordinal_map, setOrdinals_get?_not_mem _ _ _ _ hkn,
      get?_replicate_of_lt _ _ _ (by rw [tableSize_eq]; exact hk)]

/-- C5 witness: the amended statement at the concrete list `[0, 1, 36]`:
the table has 37 entries, id 36 (position 2) maps to ordinal 2, and the
unlisted id 13 maps to ordinal 0. -/
theorem ordinal_map_spec_witness :
    (ordinal_map [0, 1, 36]).length = 37 ∧
    (ordinal_map [0, 1, 36]).get? 36 = some 2 ∧
    (ordinal_map [0, 1, 36]).get? 13 = some 0 := by
  have h := ordinal_map_spec [0, 1, 36] (by decide) (by decide) (by decide)
  exact ⟨h.1, (h.2.1 2 36 (by decide)).2, h.2.2 13 (by decide) (by decide)⟩

/-- C9: whatever subset of the valid classes is requested, the ordinal
table always has 37 entries, so the `__getitem__` remapping is defined for
every raw mask value in `[0, 36]`; a mask containing a value above 36 makes
the lookup fail (and the query errors) rather than return a sample. -/
theorem ordinal_map_always_total (classes : List ℕ)
    (hsub : ∀ k ∈ classes, k ∈ cmapKeys) :
    (ordinal_map classes).length = 37 ∧
    (∀ mask : List ℕ, (∀ v ∈ mask, v ≤ 36) →
      ∃ out, remapMask (ordinal_map classes) mask = some out) ∧
    (∀ mask : List ℕ, (∃ v ∈ mask, 36 < v) →
      remapMask (ordinal_map classes) mask = none) := by
  have hlen : (ordinal_map classes).length = 37 := by
    rw [ordinal_map, setOrdinals_length, List.length_replicate, tableSize_eq]
  refine ⟨hlen, ?_, ?_⟩
  · intro mask hmask
    induction mask with
    | nil => exact ⟨[], rfl⟩
    | cons a rest ih =>
      obtain ⟨os, hos⟩ := ih (fun v hv => hmask v (List.mem_cons_of_mem a hv))
      have ha : a < (ordinal_map classes).length := by
        rw [hlen]
        have := hmask a (List.mem_cons_self a rest)
        omega
      obtain ⟨o, ho⟩ : ∃ o, (ordinal_map classes).get? a = some o := by
        cases hga : (ordinal_map classes).get? a with
        | none => exact absurd (List.get?_eq_none.mp hga) (by omega)
        | some o => exact ⟨o, rfl⟩
      exact ⟨o :: os, by rw [remapMask, ho, hos]⟩
  · intro mask hmask
    induction mask with
    | nil => simp at hmask
    | cons a rest ih =>
      obtain ⟨v, hv_mem, hv⟩ := hmask
      rcases List.mem_cons.mp hv_mem with rfl | hv_rest
      · have ha : (ordinal_map classes).get? v = none := by
          rw [List.get?_eq_none, hlen]
          omega
        rw [remapMask, ha]
      · have := ih ⟨v, hv_rest, hv⟩
        rw [remapMask, this]
        cases (ordinal_map classes).get? a <;> rfl

/-- C9 witness: with the full class list requested, a mask value of 20
(valid range, unrequested id) is remapped, while a mask containing 40 makes
the lookup fail. -/
theorem ordinal_map_always_total_witness :
    (ordinal_map cmapKeys).length = 37 ∧
    (∃ out, remapMask (ordinal_map cmapKeys) [20, 0] = some out) ∧
    remapMask (ordinal_map cmapKeys) [0, 40] = none := by
  have h := ordinal_map_always_total cmapKeys (fun k hk => hk)
  exact ⟨h.1, h.2.1 [20, 0] (by decide), h.2.2 [0, 40] (by decide)⟩

/-- One record of the dataset's spatiotemporal index: file path, bounding
box and time interval.  The index is built once at construction by
`RasterDataset` (in `geo.py`) and is immutable; modelled from the spec:
records carry a half-open time interval `[tstart, tstop)` and are kept in
time-sorted order, which is the order of this list. -/
structure IndexRecord where
  filepath : String
  xmin : ℚ
  ymin : ℚ
  xmax : ℚ
  ymax : ℚ
  tstart : ℚ
  tstop : ℚ
deriving DecidableEq

/-- A query window `[xmin:xmax:xres, ymin:ymax:yres, tmin:tmax:tres]` as
produced by `_disambiguate_slice`; only the time step takes part in record
selection (the x/y steps are resolutions used by the merge step). -/
structure GeoSlice where
  xstart : ℚ
  xstop : ℚ
  ystart : ℚ
  ystop : ℚ
  tstart : ℚ
  tstop : ℚ
  tstep : Option ℕ
deriving DecidableEq

/-- Modelled from the spec: the time filter of `AgriFieldNet.__getitem__`
(`self.index.index.overlaps(pd.Interval(t.start, t.stop))`, implemented in
pandas, outside this repository): a record's half-open interval `[a, b)`
overlaps the query interval iff `a < query.tstop` and `b > query.tstart`. -/
def timeOverlapsB (r : IndexRecord) (q : GeoSlice) : Bool :=
  decide (r.tstart < q.tstop ∧ q.tstart < r.tstop)

/-- Modelled from the spec: the spatial filter
`.cx[x.start : x.stop, y.start : y.stop]` (implemented in geopandas,
outside this repository): keep records whose bounding box intersects the
rectangle `[x.start, x.stop] × [y.start, y.stop]`. -/
def bboxIntersectsB (r : IndexRecord) (q : GeoSlice) : Bool :=
  decide (r.xmin ≤ q.xstop ∧ q.xstart ≤ r.xmax ∧
    r.ymin ≤ q.ystop ∧ q.ystart ≤ r.ymax)

/-- Python positional slicing with a stride, `.iloc[:: step]`: the elements
at positions `0, k, 2k, …`; an omitted step keeps every row. -/
def pySliceStride {α : Type} (step : Option ℕ) (l : List α) : List α :=
  match step with
  | none => l
  | some k => (l.enum.filter (fun p => p.1 % k == 0)).map Prod.snd

/-- The record selection of `AgriFieldNet.__getitem__` lines 190–193:
time-overlap filter over the index, then the stride over the filtered rows,
then the spatial filter. -/
def selectRecords (index : List IndexRecord) (q : GeoSlice) : List IndexRecord :=
  (pySliceStride q.tstep (index.filter (fun r => timeOverlapsB r q))).filter
    (fun r => bboxIntersectsB r q)

/-- Taking every `k`-th element, phrased as a countdown: `c` is the number
of elements still to skip before the next one kept. -/
def everyNthAux {α : Type} (k : ℕ) : ℕ → List α → List α
  | _, [] => []
  | 0, a :: rest => a :: everyNthAux k (k - 1) rest
  | c + 1, _ :: rest => everyNthAux k c rest

/-- Take every `k`-th element of a list: the first element, then the one
`k` places later, and so on. -/
def everyNth {α : Type} (k : ℕ) (l : List α) : List α := everyNthAux k 0 l

lemma filter_mod_enumFrom {α : Type} (k : ℕ) (hk : 0 < k) :
    ∀ (l : List α) (j c : ℕ), c = (k - j % k) % k →
      ((List.enumFrom j l).filter (fun p => p.1 % k == 0)).map Prod.snd =
        everyNthAux k c l := by
  intro l
  induction l with
  | nil =>
    intro j c _
    simp [everyNthAux]
  | cons a l ih =>
    intro j c hc
    have key : (j % k + 1) % k = (j + 1) % k := Nat.mod_add_mod j k 1
    have henum : List.enumFrom j (a :: l) = (j, a) :: List.enumFrom (j + 1) l := rfl
    by_cases h0 : j % k = 0
    · have hc0 : c = 0 := by
        rw [hc, h0, Nat.sub_zero, Nat.mod_self]
      subst hc0
      have hstep : (k : ℕ) - 1 = (k - (j + 1) % k) % k := by
        rw [← key, h0, Nat.zero_add]
        by_cases hk1 : k = 1
        · subst hk1
          simp
        · have h2 : 1 < k := by omega
          rw [Nat.mod_eq_of_lt h2, Nat.mod_eq_of_lt (by omega)]
      rw [henum, List.filter_cons_of_pos (by simp [h0]), List.map_cons]
      rw [show everyNthAux k 0 (a :: l) = a :: everyNthAux k (k - 1) l from rfl]
      exact congrArg (a :: ·) (ih (j + 1) (k - 1) hstep)
    · obtain ⟨r, hr⟩ : ∃ r, j % k = r := ⟨_, rfl⟩
      have hrlt : r < k := hr ▸ Nat.mod_lt _ hk
      have hrpos : 0 < r := Nat.pos_of_ne_zero (hr ▸ h0)
      have hcc : c = k - r := by
        rw [hc, hr, Nat.mod_eq_of_lt (by omega)]
      obtain ⟨c', rfl⟩ : ∃ c', c = c' + 1 := ⟨c - 1, by omega⟩
      have hstep : c' = (k - (j + 1) % k) % k := by
        rw [← key, hr]
        by_cases he : r + 1 = k
        · rw [he, Nat.mod_self, Nat.sub_zero, Nat.mod_self]
          omega
        · have hmod : (r + 1) % k = r + 1 := Nat.mod_eq_of_lt (by omega)
          rw [hmod, Nat.mod_eq_of_lt (by omega)]
          omega
      rw [henum, List.filter_cons_of_neg (by simp [hr]; omega)]
      rw [show everyNthAux k (c' + 1) (a :: l) = everyNthAux k c' l from rfl]
      exact ih (j + 1) c' hstep

/-- Python slicing `l[::k]` with a positive stride takes exactly every
`k`-th element. -/
lemma pySliceStride_eq_everyNth {α : Type} (k : ℕ) (hk : 0 < k) (l : List α) :
    pySliceStride (some k) l = everyNth k l := by
  rw [pySliceStride, everyNth]
  have h0 : (0 : ℕ) = (k - 0 % k) % k := by
    rw [Nat.zero_mod, Nat.sub_zero, Nat.mod_self]
  exact filter_mod_enumFrom k hk l 0 0 h0

/-- C1: the records selected by `AgriFieldNet.__getitem__` for a query
window are exactly those obtained by keeping the records whose half-open
time interval overlaps the query interval (`a < query.end` and
`b > query.start`), then taking every `step`-th record of that time-sorted
overlap-filtered list (Python slice-stride semantics), then keeping those
whose bounding box intersects `[x.start, x.stop] × [y.start, y.stop]`. -/
theorem selectRecords_spec (index : List IndexRecord) (q : GeoSlice) :
    (q.tstep = none →
      selectRecords index q =
        (index.filter
          (fun r => decide (r.tstart < q.tstop ∧ q.tstart < r.tstop))).filter
          (fun r => decide (r.xmin ≤ q.xstop ∧ q.xstart ≤ r.xmax ∧
            r.ymin ≤ q.ystop ∧ q.ystart ≤ r.ymax))) ∧
    (∀ k : ℕ, q.tstep = some k → 0 < k →
      selectRecords index q =
        (everyNth k (index.filter
          (fun r => decide (r.tstart < q.tstop ∧ q.tstart < r.tstop)))).filter
          (fun r => decide (r.xmin ≤ q.xstop ∧ q.xstart ≤ r.xmax ∧
            r.ymin ≤ q.ystop ∧ q.ystart ≤ r.ymax))) := by
  constructor
  · intro h
    simp only [selectRecords, h, pySliceStride, timeOverlapsB, bboxIntersectsB]
  · intro k hk hkpos
    simp only [selectRecords, hk, timeOverlapsB, bboxIntersectsB,
      pySliceStride_eq_everyNth k hkpos]

/-- C1 witness: five records, query `[0,5] × [0,5] × [0,20)` with time step
2: records `d` (time-disjoint) is dropped, the stride keeps positions 0 and
2 of the remaining four, and the spatial filter keeps both. -/
theorem selectRecords_spec_witness :
    selectRecords
      [⟨"a", 0, 0, 10, 10, 0, 5⟩, ⟨"b", 20, 20, 30, 30, 5, 10⟩,
       ⟨"c", 0, 0, 10, 10, 10, 15⟩, ⟨"d", 0, 0, 10, 10, 50, 60⟩,
       ⟨"e", 0, 0, 10, 10, 15, 20⟩]
      ⟨0, 5, 0, 5, 0, 20, some 2⟩ =
      [⟨"a", 0, 0, 10, 10, 0, 5⟩, ⟨"c", 0, 0, 10, 10, 10, 15⟩] := by
  rw [(selectRecords_spec
    [⟨"a", 0, 0, 10, 10, 0, 5⟩, ⟨"b", 20, 20, 30, 30, 5, 10⟩,
     ⟨"c", 0, 0, 10, 10, 10, 15⟩, ⟨"d", 0, 0, 10, 10, 50, 60⟩,
     ⟨"e", 0, 0, 10, 10, 15, 20⟩]
    ⟨0, 5, 0, 5, 0, 20, some 2⟩).2 2 rfl (by norm_num)]
  decide

/-- The dataset's overall bounds `self.bounds`, reported in the error
message of a failed query. -/
structure DatasetBounds where
  xmin : ℚ
  xmax : ℚ
  ymin : ℚ
  ymax : ℚ
  tmin : ℚ
  tmax : ℚ
deriving DecidableEq

/-- `AgriFieldNet.__getitem__` up to record selection: if the selected
subset is empty, raise
`IndexError('query: {query} not found in index with bounds: {self.bounds}')`
— modelled as an error value carrying the query and the dataset bounds;
otherwise proceed with the selected records (the subsequent merge is
external raster I/O). -/
def agriGetitem (index : List IndexRecord) (bounds : DatasetBounds)
    (q : GeoSlice) : Except (GeoSlice × DatasetBounds) (List IndexRecord) :=
  let sel := selectRecords index q
  if sel.isEmpty then .error (q, bounds) else .ok sel

/-- C2: whenever the filtered record subset of a query is empty, retrieval
fails with the indexing error, whose payload reports both the query and the
dataset's overall bounds; a non-empty selection succeeds, and every error
carries exactly the query and the bounds (no other effect occurs — the
function is pure). -/
theorem agriGetitem_empty_error (index : List IndexRecord)
    (bounds : DatasetBounds) (q : GeoSlice) :
    (selectRecords index q = [] →
      agriGetitem index bounds q = .error (q, bounds)) ∧
    (selectRecords index q ≠ [] →
      agriGetitem index bounds q = .ok (selectRecords index q)) ∧
    (∀ e, agriGetitem index bounds q = .error e → e.1 = q ∧ e.2 = bounds) := by
  refine ⟨?_, ?_, ?_⟩
  · intro h
    simp [agriGetitem, h]
  · intro h
    simp [agriGetitem, h]
  · intro e he
    by_cases h : selectRecords index q = []
    · simp [agriGetitem, h] at he
      rw [← he]
      exact ⟨rfl, rfl⟩
    · simp [agriGetitem, h] at he

/-- C2 witness: a query whose time interval misses the single index record
fails with the error reporting that query and the dataset bounds. -/
theorem agriGetitem_empty_error_witness :
    agriGetitem [⟨"a", 0, 0, 10, 10, 0, 5⟩]
      ⟨0, 10, 0, 10, 0, 5⟩ ⟨0, 10, 0, 10, 50, 60, none⟩ =
      .error (⟨0, 10, 0, 10, 50, 60, none⟩, ⟨0, 10, 0, 10, 0, 5⟩) :=
  (agriGetitem_empty_error [⟨"a", 0, 0, 10, 10, 0, 5⟩]
    ⟨0, 10, 0, 10, 0, 5⟩ ⟨0, 10, 0, 10, 50, 60, none⟩).1 (by decide)

end AgriFieldNet

end TorchGeo
